import Mathlib

/-!
Verification of the KUSS (WebAudioSurf) offline audio-analysis and
track-generation core, shallowly embedded from
`src/js/modules/audioProcessor.js` and `src/js/modules/trackGenerator.js`
with configuration constants from `src/js/config.js`.

JavaScript numbers are modelled as `Option ℚ`: `some q` is a finite number
with exact rational value `q`, and `none` stands for the non-finite values
(NaN or ±Infinity) that arise from dividing by zero or from reading past the
end of an array (`undefined` used in arithmetic).  Transcendental functions
(`Math.sin`, `Math.cos`, square roots inside `THREE.Vector3.normalize`) are
taken as explicit function parameters of the embedding.
-/

namespace KUSS

/-- JS addition: NaN-propagating. -/
def jAdd : Option ℚ → Option ℚ → Option ℚ
  | some a, some b => some (a + b)
  | _, _ => none

/-- JS subtraction: NaN-propagating. -/
def jSub : Option ℚ → Option ℚ → Option ℚ
  | some a, some b => some (a - b)
  | _, _ => none

/-- JS multiplication: NaN-propagating. -/
def jMul : Option ℚ → Option ℚ → Option ℚ
  | some a, some b => some (a * b)
  | _, _ => none

/-- JS division: NaN-propagating; a zero divisor yields a non-finite value
(`NaN` when the numerator is zero, `±Infinity` otherwise), modelled `none`. -/
def jDiv : Option ℚ → Option ℚ → Option ℚ
  | some a, some b => if b = 0 then none else some (a / b)
  | _, _ => none

/-- `x * x` with JS semantics. -/
def jSq (v : Option ℚ) : Option ℚ := jMul v v

/-- `Math.min(1, x)`; `Math.min(1, NaN) = NaN`. -/
def jMin1 : Option ℚ → Option ℚ
  | some a => some (min 1 a)
  | none => none

/-- JS comparison `v > c`: any comparison with NaN is false. -/
def jGt (v : Option ℚ) (c : ℚ) : Bool :=
  match v with
  | some q => decide (c < q)
  | none => false

/-- JS read `a[i]` from a byte array at a possibly negative index:
out-of-bounds reads give `undefined`, which behaves as NaN in arithmetic. -/
def jGetI (l : List ℕ) (i : ℤ) : Option ℚ :=
  if i < 0 then none else (l.get? i.toNat).map (fun n => (n : ℚ))

/-- Applying a JS math function (e.g. `Math.sin`): NaN maps to NaN. -/
def jApp (f : ℚ → ℚ) : Option ℚ → Option ℚ := Option.map f

/-- The integer list `[lo, lo+1, ..., hi]` traversed by a JS loop
`for (let i = lo; i <= hi; i++)`; empty when `hi < lo`. -/
def intRange (lo hi : ℤ) : List ℤ :=
  (List.range (hi + 1 - lo).toNat).map (fun (k : ℕ) => lo + (k : ℤ))

/-! ### Configuration (`src/js/config.js`) -/

/-- `CONFIG.game.laneCount` -/
def laneCount : ℕ := 3

/-- `CONFIG.track.segmentLength` -/
def segmentLength : ℚ := 50

/-- `CONFIG.track.segmentWidth` (`this.trackWidth` in TrackGenerator) -/
def trackWidth : ℚ := 30

/-- `CONFIG.track.curveIntensity` -/
def curveIntensity : ℚ := 8 / 10

/-- `CONFIG.track.hilliness` -/
def hilliness : ℚ := 6 / 10

/-- One configured frequency band `{min, max}` in Hz. -/
structure Band where
  bmin : ℚ
  bmax : ℚ
deriving DecidableEq

/-- `CONFIG.audio.frequencyBands` -/
def frequencyBands : List Band :=
  [⟨20, 60⟩, ⟨60, 250⟩, ⟨250, 500⟩, ⟨500, 2000⟩, ⟨2000, 6000⟩, ⟨6000, 20000⟩]

/-- `CONFIG.visuals.blockColors.length` -/
def blockColorsLength : ℕ := 6

/-! ### AudioProcessor (`src/js/modules/audioProcessor.js`) -/

/-- `calculateBandEnergies(frequencyData)` (audioProcessor.js lines 228-248).
For each configured band it computes `minIndex = Math.floor(band.min / nyquist
* frequencyData.length)`, `maxIndex` likewise from `band.max`, sums
`frequencyData[i] / 255` for `i` from `minIndex` to `maxIndex` inclusive and
divides by `maxIndex - minIndex + 1`.  `sampleRate` is
`this.audioContext.sampleRate`. -/
def calculateBandEnergies (sampleRate : ℚ) (frequencyData : List ℕ) : List (Option ℚ) :=
  let nyquist := sampleRate / 2
  frequencyBands.map (fun band =>
    let minIndex : ℤ := ⌊band.bmin / nyquist * (frequencyData.length : ℚ)⌋
    let maxIndex : ℤ := ⌊band.bmax / nyquist * (frequencyData.length : ℚ)⌋
    let energy := (intRange minIndex maxIndex).foldl
      (fun e i => jAdd e (jDiv (jGetI frequencyData i) (some 255))) (some 0)
    jDiv energy (some ((maxIndex : ℚ) - (minIndex : ℚ) + 1)))

/-- `detectBeat(frequencyData, timeData)` (audioProcessor.js lines 256-279):
bass energy over bins `0 ≤ i < Math.floor(150 / nyquist * length)` normalized
by `maxIndex * 255`, plus mean absolute first difference of the waveform
normalized by `255 * timeData.length`, combined `0.7/0.3` and clamped at 1. -/
def detectBeat (sampleRate : ℚ) (frequencyData timeData : List ℕ) : Option ℚ :=
  let nyquist := sampleRate / 2
  let maxIndex : ℤ := ⌊(150 : ℚ) / nyquist * (frequencyData.length : ℚ)⌋
  let energy := (intRange 0 (maxIndex - 1)).foldl
    (fun e i => jAdd e (jGetI frequencyData i)) (some 0)
  let energy := jDiv energy (some ((maxIndex : ℚ) * 255))
  let transientSum : ℚ :=
    (timeData.zip timeData.tail).foldl (fun s p => s + |(p.2 : ℚ) - (p.1 : ℚ)|) 0
  let transientEnergy := jDiv (some transientSum) (some (255 * (timeData.length : ℚ)))
  jMin1 (jAdd (jMul energy (some (7 / 10))) (jMul transientEnergy (some (3 / 10))))

/-- `determineBlockColor(bandEnergies)` (audioProcessor.js lines 286-300):
index of the band with maximum energy (strict `>` against a running maximum
that starts at 0; comparisons with NaN are false), modulo the palette size. -/
def determineBlockColor (bandEnergies : List (Option ℚ)) : ℕ :=
  let r := bandEnergies.foldl
    (fun (acc : ℕ × ℚ × ℕ) e =>
      match e with
      | some v => if acc.2.1 < v then (acc.2.2, v, acc.2.2 + 1) else (acc.1, acc.2.1, acc.2.2 + 1)
      | none => (acc.1, acc.2.1, acc.2.2 + 1))
    (0, 0, 0)
  r.1 % blockColorsLength

/-- One analysis result pushed by `analyzeAudio` (audioProcessor.js 188-196). -/
structure AnalysisFrame where
  time : ℚ
  frequencyData : List ℕ
  timeData : List ℕ
  bandEnergies : List (Option ℚ)
  beatIntensity : Option ℚ
  isBlock : Bool
  blockColor : ℕ
deriving DecidableEq

instance : Inhabited AnalysisFrame := ⟨⟨0, [], [], [], none, false, 0⟩⟩

/-- A decoded `AudioBuffer` as consumed by the analysis pipeline. -/
structure AudioBuffer where
  duration : ℚ
  sampleRate : ℚ
deriving DecidableEq

/-- The fields of `AudioProcessor` touched by `analyzeAudio`:
`this.audioBuffer`, `this.audioContext.sampleRate`, `this.analysisResults`,
`this.analysisDone`. -/
structure ProcessorState where
  audioBuffer : Option AudioBuffer
  ctxSampleRate : ℚ
  analysisResults : List AnalysisFrame
  analysisDone : Bool
deriving DecidableEq

/-- The `processChunk` recursion of `analyzeAudio` (audioProcessor.js 158-209):
each step suspends at `nextTime = Math.min(currentTime + interval,
totalDuration)`, reads the analyser (modelled by the oracle `analyser`, giving
the byte frequency and time-domain arrays at the suspension time), and pushes
a frame stamped with `currentTime`.  The counter check `currentPoint >=
totalPoints` is modelled by the fuel argument. -/
def processChunks (analyser : ℚ → List ℕ × List ℕ) (sampleRate duration interval : ℚ) :
    ℕ → ℚ → List AnalysisFrame
  | 0, _ => []
  | n + 1, currentTime =>
    let nextTime := min (currentTime + interval) duration
    let frequencyData := (analyser nextTime).1
    let timeData := (analyser nextTime).2
    let bandEnergies := calculateBandEnergies sampleRate frequencyData
    let beatIntensity := detectBeat sampleRate frequencyData timeData
    { time := currentTime
      frequencyData := frequencyData
      timeData := timeData
      bandEnergies := bandEnergies
      beatIntensity := beatIntensity
      isBlock := jGt beatIntensity (6 / 10)
      blockColor := determineBlockColor bandEnergies } ::
      processChunks analyser sampleRate duration interval n nextTime

/-- `analyzeAudio(resolution)` (audioProcessor.js lines 117-221).  With no
decoded buffer it rejects immediately, leaving the processor state untouched;
otherwise it computes `totalPoints = Math.floor(totalDuration * resolution)`,
`interval = 1 / resolution`, runs the chunk loop and resolves with the
accumulated `analysisResults`, setting `analysisDone`. -/
def analyzeAudio (analyser : ℚ → List ℕ × List ℕ) (resolution : ℚ)
    (st : ProcessorState) : Except String (List AnalysisFrame) × ProcessorState :=
  match st.audioBuffer with
  | none => (Except.error "No audio buffer available for analysis", st)
  | some buf =>
    let totalDuration := buf.duration
    let totalPoints : ℤ := ⌊totalDuration * resolution⌋
    let interval := 1 / resolution
    let results := processChunks analyser st.ctxSampleRate totalDuration interval
      totalPoints.toNat 0
    (Except.ok results,
      { st with analysisResults := results, analysisDone := true })

/-! ### TrackGenerator (`src/js/modules/trackGenerator.js`) -/

/-- A `THREE.Vector3` whose components are JS numbers. -/
structure Vec3 where
  x : Option ℚ
  y : Option ℚ
  z : Option ℚ
deriving DecidableEq

/-- One entry of `this.trackPath` (trackGenerator.js 62-66, 130-134). -/
structure PathPoint where
  position : Vec3
  rotation : Option ℚ
  tilt : Option ℚ
deriving DecidableEq

instance : Inhabited PathPoint :=
  ⟨⟨⟨some 0, some 0, some 0⟩, some 0, some 0⟩⟩

/-- One entry of `this.trackSegments` (trackGenerator.js 138-144). -/
structure TrackSegment where
  startPathIndex : ℕ
  endPathIndex : ℕ
  audioIndex : ℕ
  beatIntensity : Option ℚ
  bandEnergies : List (Option ℚ)
deriving DecidableEq

instance : Inhabited TrackSegment := ⟨⟨0, 0, 0, none, []⟩⟩

/-- `pointsPerSegment` (trackGenerator.js line 57). -/
def pointsPerSegment : ℕ := 4

/-- The initial straight section (trackGenerator.js 61-67): ten points at
`(0, 0, -i * segmentLength / pointsPerSegment)` with zero rotation and tilt. -/
def leadIn : List PathPoint :=
  (List.range 10).map (fun (i : ℕ) =>
    { position := ⟨some 0, some 0,
        some (-(i : ℚ) * segmentLength / (pointsPerSegment : ℚ))⟩
      rotation := some 0
      tilt := some 0 })

/-- The mutable locals of `generateTrackPath` together with the two arrays it
builds (trackGenerator.js 53-75). -/
structure PathState where
  trackPath : List PathPoint
  trackSegments : List TrackSegment
  currentDirection : Option ℚ
  currentTilt : Option ℚ
  targetDirection : Option ℚ
  targetTilt : Option ℚ
  currentElevation : Option ℚ
  targetElevation : Option ℚ

/-- One iteration of the `generateTrackPath` loop body (trackGenerator.js
78-146) for the frame at loop index `i`.  `fsin`/`fcos` stand for `Math.sin`
and `Math.cos`.  `trackPath[trackPath.length - 1]` is read via `getLast?`;
the default is never used because the path always contains the lead-in. -/
def pathStep (fsin fcos : ℚ → ℚ) (i : ℕ) (s : PathState) (analysis : AnalysisFrame) :
    PathState :=
  let targetDirection :=
    if jGt analysis.beatIntensity (7 / 10) then
      let directionInfluence :=
        jSub (analysis.bandEnergies.getD 1 none) (analysis.bandEnergies.getD 4 none)
      jMul (jMul directionInfluence (some curveIntensity)) (some (1 / 2))
    else
      jMul s.targetDirection (some (95 / 100))
  let targetTilt :=
    if jGt (analysis.bandEnergies.getD 2 none) (7 / 10) ||
        jGt (analysis.bandEnergies.getD 3 none) (7 / 10) then
      jMul (jSub (analysis.bandEnergies.getD 2 none) (analysis.bandEnergies.getD 3 none))
        (some hilliness)
    else
      jMul s.targetTilt (some (95 / 100))
  let amplitudeSum : ℚ := analysis.timeData.foldl (fun acc t => acc + |(t : ℚ) - 128|) 0
  let avgAmplitude := jDiv (some amplitudeSum) (some (analysis.timeData.length : ℚ))
  let targetElevation :=
    jSub (jMul (jMul (jDiv avgAmplitude (some 128)) (some hilliness)) (some 10)) (some 5)
  let currentDirection :=
    jAdd (jMul s.currentDirection (some (9 / 10))) (jMul targetDirection (some (1 / 10)))
  let currentTilt :=
    jAdd (jMul s.currentTilt (some (9 / 10))) (jMul targetTilt (some (1 / 10)))
  let currentElevation :=
    jAdd (jMul s.currentElevation (some (95 / 100))) (jMul targetElevation (some (5 / 100)))
  let lastPoint := s.trackPath.getLast?.getD default
  let newDirection := jAdd lastPoint.rotation currentDirection
  let newX := jAdd lastPoint.position.x
    (jDiv (jMul (jApp fsin newDirection) (some segmentLength)) (some (pointsPerSegment : ℚ)))
  let newZ := jSub lastPoint.position.z
    (jDiv (jMul (jApp fcos newDirection) (some segmentLength)) (some (pointsPerSegment : ℚ)))
  let newY := jAdd lastPoint.position.y currentElevation
  let trackPath := s.trackPath ++
    [{ position := ⟨newX, newY, newZ⟩, rotation := newDirection, tilt := currentTilt }]
  let trackSegments :=
    if i % pointsPerSegment = 0 then
      s.trackSegments ++
        [{ startPathIndex := trackPath.length - pointsPerSegment
           endPathIndex := trackPath.length - 1
           audioIndex := i
           beatIntensity := analysis.beatIntensity
           bandEnergies := analysis.bandEnergies }]
    else s.trackSegments
  { trackPath := trackPath
    trackSegments := trackSegments
    currentDirection := currentDirection
    currentTilt := currentTilt
    targetDirection := targetDirection
    targetTilt := targetTilt
    currentElevation := currentElevation
    targetElevation := targetElevation }

/-- The `for` loop of `generateTrackPath` over the analysis results, starting
at loop index `i`. -/
def runPath (fsin fcos : ℚ → ℚ) : List AnalysisFrame → ℕ → PathState → PathState
  | [], _, s => s
  | f :: rest, i, s => runPath fsin fcos rest (i + 1) (pathStep fsin fcos i s f)

/-- The state of `generateTrackPath` just before its main loop
(trackGenerator.js 53-75): the ten lead-in points are pushed, the segment
array is empty, and the six curvature locals are zero. -/
def initPathState : PathState :=
  { trackPath := leadIn
    trackSegments := []
    currentDirection := some 0
    currentTilt := some 0
    targetDirection := some 0
    targetTilt := some 0
    currentElevation := some 0
    targetElevation := some 0 }

/-- `generateTrackPath(analysisResults)` (trackGenerator.js 52-147): resets
the path and segment arrays, pushes the ten lead-in points, zeroes the six
curvature locals and runs the loop. -/
def generateTrackPath (fsin fcos : ℚ → ℚ) (analysisResults : List AnalysisFrame) :
    PathState :=
  runPath fsin fcos analysisResults 0 initPathState

/-- `a.sub(b)` on `THREE.Vector3`. -/
def jvSub (a b : Vec3) : Vec3 := ⟨jSub a.x b.x, jSub a.y b.y, jSub a.z b.z⟩

/-- `a.add(b)` on `THREE.Vector3`. -/
def jvAdd (a b : Vec3) : Vec3 := ⟨jAdd a.x b.x, jAdd a.y b.y, jAdd a.z b.z⟩

/-- `a.cross(b)` on `THREE.Vector3`. -/
def jvCross (a b : Vec3) : Vec3 :=
  ⟨jSub (jMul a.y b.z) (jMul a.z b.y),
   jSub (jMul a.z b.x) (jMul a.x b.z),
   jSub (jMul a.x b.y) (jMul a.y b.x)⟩

/-- `a.multiplyScalar(s)` on `THREE.Vector3`. -/
def jvScale (a : Vec3) (s : Option ℚ) : Vec3 := ⟨jMul a.x s, jMul a.y s, jMul a.z s⟩

/-- `THREE.Vector3.normalize()`, i.e. `divideScalar(length() || 1)`:
`fsqrt` stands for `Math.sqrt`; a zero (or NaN, which is falsy) length is
replaced by 1 before dividing. -/
def jvNormalize (fsqrt : ℚ → ℚ) (a : Vec3) : Vec3 :=
  let len := jApp fsqrt (jAdd (jAdd (jSq a.x) (jSq a.y)) (jSq a.z))
  let d : ℚ :=
    match len with
    | some l => if l = 0 then 1 else l
    | none => 1
  ⟨jDiv a.x (some d), jDiv a.y (some d), jDiv a.z (some d)⟩

/-- One entry of `this.blocks` (trackGenerator.js 470-477); `meshVisible`
models `block.mesh.visible`, `visible` the bookkeeping flag `block.visible`. -/
structure Block where
  laneIndex : ℤ
  segmentIndex : ℤ
  color : ℕ
  collected : Bool
  visible : Bool
  meshVisible : Bool
deriving DecidableEq

instance : Inhabited Block := ⟨⟨0, 0, 0, false, false, false⟩⟩

/-- The parts of the `TrackGenerator` state read by the query methods. -/
structure TrackState where
  trackPath : List PathPoint
  trackSegments : List TrackSegment
  blocks : List Block

/-- Read `this.trackPath[i]` at a signed index.  JS would yield `undefined`
(and the method would then throw on member access); the claims only exercise
indices for which the read is in range, so out-of-range reads return the
default point. -/
def pathAt (path : List PathPoint) (i : ℤ) : PathPoint :=
  if i < 0 then default else path.getD i.toNat default

/-- `getPositionOnTrack(segmentIndex, laneIndex, offset)` (trackGenerator.js
544-575).  Out-of-range segment indices return the origin; otherwise the
position interpolates into the segment's path range, offsets laterally along
the normalized right vector by the lane offset and lifts by `(0, 0.5, 0)`. -/
def getPositionOnTrack (fsqrt : ℚ → ℚ) (ts : TrackState)
    (segmentIndex : ℤ) (laneIndex : ℚ) (offset : ℚ) : Vec3 :=
  if segmentIndex < 0 ∨ (ts.trackSegments.length : ℤ) ≤ segmentIndex then
    ⟨some 0, some 0, some 0⟩
  else
    let segment := ts.trackSegments.getD segmentIndex.toNat default
    let pointIndex : ℤ := (segment.startPathIndex : ℤ) +
      ⌊offset * ((segment.endPathIndex : ℚ) - (segment.startPathIndex : ℚ))⌋
    let point := pathAt ts.trackPath pointIndex
    let laneWidth := trackWidth / (laneCount : ℚ)
    let laneOffset := -(trackWidth / 2) + (laneIndex + 1 / 2) * laneWidth
    let forward :=
      if pointIndex + 1 < (ts.trackPath.length : ℤ) then
        jvNormalize fsqrt
          (jvSub (pathAt ts.trackPath (pointIndex + 1)).position point.position)
      else ⟨some 0, some 0, some (-1)⟩
    let right := jvNormalize fsqrt (jvCross ⟨some 0, some 1, some 0⟩ forward)
    jvAdd (jvAdd point.position (jvScale right (some laneOffset)))
      ⟨some 0, some (1 / 2), some 0⟩

/-- `getDirectionAtSegment(segmentIndex, offset)` (trackGenerator.js 583-600):
the default forward `(0, 0, -1)` for out-of-range segment indices or at the
end of the path, else the normalized forward difference of path points. -/
def getDirectionAtSegment (fsqrt : ℚ → ℚ) (ts : TrackState)
    (segmentIndex : ℤ) (offset : ℚ) : Vec3 :=
  if segmentIndex < 0 ∨ (ts.trackSegments.length : ℤ) ≤ segmentIndex then
    ⟨some 0, some 0, some (-1)⟩
  else
    let segment := ts.trackSegments.getD segmentIndex.toNat default
    let pointIndex : ℤ := (segment.startPathIndex : ℤ) +
      ⌊offset * ((segment.endPathIndex : ℚ) - (segment.startPathIndex : ℚ))⌋
    if (ts.trackPath.length : ℤ) ≤ pointIndex + 1 then
      ⟨some 0, some 0, some (-1)⟩
    else
      let point := pathAt ts.trackPath pointIndex
      let nextPoint := pathAt ts.trackPath (pointIndex + 1)
      jvNormalize fsqrt (jvSub nextPoint.position point.position)

/-- The data returned by a successful `checkBlockCollision` (trackGenerator.js
626-630). -/
structure CollisionResult where
  index : ℕ
  color : ℕ
  segmentIndex : ℤ
deriving DecidableEq

/-- The `for` loop of `checkBlockCollision` starting at block index `i`:
skips collected blocks, and on the first block within one segment of the
player and in the player's lane marks it collected, hides its mesh and
returns its data. -/
def checkBlocksFrom (playerSegment playerLane : ℤ) :
    List Block → ℕ → Option CollisionResult × List Block
  | [], _ => (none, [])
  | b :: rest, i =>
    if b.collected then
      let r := checkBlocksFrom playerSegment playerLane rest (i + 1)
      (r.1, b :: r.2)
    else if |b.segmentIndex - playerSegment| ≤ 1 ∧ b.laneIndex = playerLane then
      (some ⟨i, b.color, b.segmentIndex⟩,
        { b with collected := true, meshVisible := false } :: rest)
    else
      let r := checkBlocksFrom playerSegment playerLane rest (i + 1)
      (r.1, b :: r.2)

/-- `checkBlockCollision(playerSegment, playerLane)` (trackGenerator.js
608-635), as a function from the block list to the result and the updated
block list. -/
def checkBlockCollision (playerSegment playerLane : ℤ) (blocks : List Block) :
    Option CollisionResult × List Block :=
  checkBlocksFrom playerSegment playerLane blocks 0

/-! ### Helper lemmas -/

theorem pathStep_trackPath_length (fsin fcos : ℚ → ℚ) (i : ℕ) (s : PathState)
    (a : AnalysisFrame) :
    (pathStep fsin fcos i s a).trackPath.length = s.trackPath.length + 1 := by
  simp [pathStep]

theorem pathStep_trackSegments_length (fsin fcos : ℚ → ℚ) (i : ℕ) (s : PathState)
    (a : AnalysisFrame) :
    (pathStep fsin fcos i s a).trackSegments.length =
      s.trackSegments.length + (if i % 4 = 0 then 1 else 0) := by
  by_cases h : i % 4 = 0 <;> simp [pathStep, pointsPerSegment, h]

theorem runPath_trackPath_length (fsin fcos : ℚ → ℚ) :
    ∀ (frames : List AnalysisFrame) (i : ℕ) (s : PathState),
      (runPath fsin fcos frames i s).trackPath.length =
        s.trackPath.length + frames.length
  | [], _, _ => by simp [runPath]
  | f :: rest, i, s => by
    rw [runPath, runPath_trackPath_length fsin fcos rest (i + 1) _,
      pathStep_trackPath_length]
    simp
    omega

/-- The number of loop indices `j ∈ [i, i+n)` with `j % 4 = 0`. -/
def segCount : ℕ → ℕ → ℕ
  | _, 0 => 0
  | i, n + 1 => (if i % 4 = 0 then 1 else 0) + segCount (i + 1) n

theorem runPath_trackSegments_length (fsin fcos : ℚ → ℚ) :
    ∀ (frames : List AnalysisFrame) (i : ℕ) (s : PathState),
      (runPath fsin fcos frames i s).trackSegments.length =
        s.trackSegments.length + segCount i frames.length
  | [], _, _ => by simp [runPath, segCount]
  | f :: rest, i, s => by
    rw [runPath, runPath_trackSegments_length fsin fcos rest (i + 1) _,
      pathStep_trackSegments_length]
    simp [segCount]
    omega

theorem segCount_closed : ∀ (n i : ℕ), segCount i n = (i + n + 3) / 4 - (i + 3) / 4
  | 0, i => by simp [segCount]
  | n + 1, i => by
    rw [segCount, segCount_closed n (i + 1)]
    by_cases h : i % 4 = 0 <;> simp [h] <;> omega

theorem leadIn_length : leadIn.length = 10 := by decide

/-! ### C10: one path point per analysis frame after the ten-point lead-in -/

/-- C10 — The path produced by `generateTrackPath` has exactly `10 + n`
points for an input of `n` analysis frames: the loop appends exactly one
`PathPoint` per frame after the ten lead-in points (not `pointsPerSegment`
points per frame). -/
theorem generateTrackPath_pointCount (fsin fcos : ℚ → ℚ)
    (frames : List AnalysisFrame) :
    (generateTrackPath fsin fcos frames).trackPath.length = 10 + frames.length := by
  rw [generateTrackPath, runPath_trackPath_length]
  simp [initPathState, leadIn_length]

/-! ### C2: segment count is the ceiling, not the floor, of `n / 4` -/

/-- An analysis frame with empty data and zero beat intensity, used as a
concrete input. -/
def blankFrame : AnalysisFrame :=
  { time := 0
    frequencyData := []
    timeData := []
    bandEnergies := [some 0, some 0, some 0, some 0, some 0, some 0]
    beatIntensity := some 0
    isBlock := false
    blockColor := 0 }

/-- C2 counterexample — For a single analysis frame, `generateTrackPath`
produces one `TrackSegment` (the loop pushes a segment whenever `i %
pointsPerSegment === 0`, which already fires at `i = 0`), while the claim's
`floor(n / pointsPerSegment)` is `floor(1/4) = 0`. -/
theorem generateTrackPath_segmentCount_not_floor :
    (generateTrackPath (fun _ => 0) (fun _ => 1) [blankFrame]).trackSegments.length ≠
      [blankFrame].length / 4 := by
  decide

/-- C2 amended — The number of `TrackSegment`s produced by
`generateTrackPath` on `n` analysis frames is the CEILING `⌈n / 4⌉ =
(n + 3) / 4` of the frames-per-segment ratio 4, not the floor: a segment is
pushed at every loop index `i` with `i % 4 = 0`, starting at `i = 0`. -/
theorem generateTrackPath_segmentCount_ceil (fsin fcos : ℚ → ℚ)
    (frames : List AnalysisFrame) :
    (generateTrackPath fsin fcos frames).trackSegments.length =
      (frames.length + 3) / 4 := by
  rw [generateTrackPath, runPath_trackSegments_length, segCount_closed]
  simp [initPathState]

/-! ### C8: analysis with no decoded buffer fails and leaves state unchanged -/

/-- C8 — When no decoded audio buffer is present, `analyzeAudio` rejects
immediately with the no-audio error and returns the processor state
completely unchanged: `analysisResults` and `analysisDone` keep their
previous values and no partial state is created. -/
theorem analyzeAudio_noBuffer (analyser : ℚ → List ℕ × List ℕ) (resolution : ℚ)
    (st : ProcessorState) (h : st.audioBuffer = none) :
    analyzeAudio analyser resolution st =
      (Except.error "No audio buffer available for analysis", st) := by
  rw [analyzeAudio, h]

/-- A processor state holding no decoded buffer. -/
def demoNoBufState : ProcessorState :=
  { audioBuffer := none
    ctxSampleRate := 44100
    analysisResults := [blankFrame]
    analysisDone := false }

/-- C8 witness — concrete run of `analyzeAudio` on a state with no buffer. -/
theorem analyzeAudio_noBuffer_witness :
    analyzeAudio (fun _ => ([], [])) 10 demoNoBufState =
      (Except.error "No audio buffer available for analysis", demoNoBufState) :=
  analyzeAudio_noBuffer (fun _ => ([], [])) 10 demoNoBufState rfl

/-! ### C9: out-of-range segment queries return the documented defaults -/

/-- C9 — For every segment index outside `[0, segmentCount)` and any lane
index and offset, `getPositionOnTrack` returns the origin `(0,0,0)` and
`getDirectionAtSegment` returns the default forward axis `(0,0,-1)`.  Both
are total functions of the model, so neither throws. -/
theorem outOfRange_queries_default (fsqrt : ℚ → ℚ) (ts : TrackState)
    (segmentIndex : ℤ) (laneIndex : ℚ) (offset : ℚ)
    (h : segmentIndex < 0 ∨ (ts.trackSegments.length : ℤ) ≤ segmentIndex) :
    getPositionOnTrack fsqrt ts segmentIndex laneIndex offset =
        ⟨some 0, some 0, some 0⟩ ∧
      getDirectionAtSegment fsqrt ts segmentIndex offset =
        ⟨some 0, some 0, some (-1)⟩ := by
  constructor
  · rw [getPositionOnTrack, if_pos h]
  · rw [getDirectionAtSegment, if_pos h]

/-- A small concrete track state: the lead-in path and one segment. -/
def demoTrack : TrackState :=
  { trackPath := leadIn
    trackSegments := [{ startPathIndex := 0, endPathIndex := 3, audioIndex := 0,
                        beatIntensity := some 0, bandEnergies := [] }]
    blocks := [] }

/-- C9 witness — concrete out-of-range queries at segment index `-1`. -/
theorem outOfRange_queries_default_witness :
    getPositionOnTrack id demoTrack (-1) 0 0 = ⟨some 0, some 0, some 0⟩ ∧
      getDirectionAtSegment id demoTrack (-1) 0 = ⟨some 0, some 0, some (-1)⟩ :=
  outOfRange_queries_default id demoTrack (-1) 0 0 (Or.inl (by decide))

/-! ### Evaluation lemmas for the JS-number operations -/

theorem jAdd_some (a b : ℚ) : jAdd (some a) (some b) = some (a + b) := rfl

theorem jSub_some (a b : ℚ) : jSub (some a) (some b) = some (a - b) := rfl

theorem jMul_some (a b : ℚ) : jMul (some a) (some b) = some (a * b) := rfl

theorem jDiv_some (a b : ℚ) (h : b ≠ 0) : jDiv (some a) (some b) = some (a / b) := by
  simp [jDiv, h]

theorem jApp_some (f : ℚ → ℚ) (a : ℚ) : jApp f (some a) = some (f a) := rfl

/-! ### C6: straight lead-in, and zero-beat input keeps the heading at zero -/

/-- The state invariant used for the zero-beat straight-line argument: the
path is nonempty with every heading zero, and the direction locals are zero. -/
def ZeroHeading (s : PathState) : Prop :=
  s.trackPath ≠ [] ∧ (∀ p ∈ s.trackPath, p.rotation = some 0) ∧
    s.targetDirection = some 0 ∧ s.currentDirection = some 0

theorem pathStep_zeroHeading (fsin fcos : ℚ → ℚ) (i : ℕ) (s : PathState)
    (a : AnalysisFrame) (ha : a.beatIntensity = some 0) (hs : ZeroHeading s) :
    ZeroHeading (pathStep fsin fcos i s a) := by
  obtain ⟨hne, hrot, htd, hcd⟩ := hs
  have hgt : jGt a.beatIntensity (7 / 10) = false := by
    rw [ha]; with_unfolding_all decide
  have hlast : s.trackPath.getLast?.getD default = s.trackPath.getLast hne := by
    rw [List.getLast?_eq_getLast s.trackPath hne]; rfl
  have hlrot : (s.trackPath.getLast hne).rotation = some 0 :=
    hrot _ (List.getLast_mem hne)
  refine ⟨?_, ?_, ?_, ?_⟩
  · simp [pathStep]
  · intro p hp
    simp only [pathStep] at hp
    rcases List.mem_append.mp hp with h | h
    · exact hrot p h
    · rcases List.mem_singleton.mp h with rfl
      simp [hgt, hlast, hlrot, htd, hcd, jAdd, jMul]
  · simp [pathStep, hgt, htd, jMul]
  · simp [pathStep, hgt, htd, hcd, jAdd, jMul]

theorem runPath_zeroHeading (fsin fcos : ℚ → ℚ) :
    ∀ (frames : List AnalysisFrame), (∀ a ∈ frames, a.beatIntensity = some 0) →
      ∀ (i : ℕ) (s : PathState), ZeroHeading s →
        ZeroHeading (runPath fsin fcos frames i s)
  | [], _, _, _, hs => hs
  | f :: rest, hb, i, s, hs => by
    rw [runPath]
    exact runPath_zeroHeading fsin fcos rest
      (fun a ha => hb a (List.mem_cons_of_mem f ha)) (i + 1) _
      (pathStep_zeroHeading fsin fcos i s f (hb f (List.mem_cons_self f rest)) hs)

theorem pathStep_trackPath_concat (fsin fcos : ℚ → ℚ) (i : ℕ) (s : PathState)
    (a : AnalysisFrame) :
    ∃ pt, (pathStep fsin fcos i s a).trackPath = s.trackPath ++ [pt] :=
  ⟨_, rfl⟩

theorem runPath_trackPath_extends (fsin fcos : ℚ → ℚ) :
    ∀ (frames : List AnalysisFrame) (i : ℕ) (s : PathState),
      ∃ rest, (runPath fsin fcos frames i s).trackPath = s.trackPath ++ rest
  | [], _, s => ⟨[], by simp [runPath]⟩
  | f :: rest, i, s => by
    rw [runPath]
    obtain ⟨tl, htl⟩ :=
      runPath_trackPath_extends fsin fcos rest (i + 1) (pathStep fsin fcos i s f)
    obtain ⟨pt, hpt⟩ := pathStep_trackPath_concat fsin fcos i s f
    exact ⟨pt :: tl, by rw [htl, hpt]; simp⟩

theorem leadIn_zero : ∀ p ∈ leadIn, p.rotation = some 0 ∧ p.tilt = some 0 := by
  decide

/-- C6 — The first ten path points of any generated path are the straight
lead-in with zero rotation and zero tilt; and if every input frame has beat
intensity 0, then every point of the whole path keeps the zero heading: the
path beyond the lead-in is a straight line (heading unchanged). -/
theorem trackPath_leadIn_and_zeroBeat_straight (fsin fcos : ℚ → ℚ)
    (frames : List AnalysisFrame) :
    (∀ p ∈ (generateTrackPath fsin fcos frames).trackPath.take 10,
        p.rotation = some 0 ∧ p.tilt = some 0) ∧
      ((∀ a ∈ frames, a.beatIntensity = some 0) →
        ∀ p ∈ (generateTrackPath fsin fcos frames).trackPath,
          p.rotation = some 0) := by
  constructor
  · intro p hp
    unfold generateTrackPath at hp
    obtain ⟨rest, hrest⟩ := runPath_trackPath_extends fsin fcos frames 0 initPathState
    rw [hrest] at hp
    have hleft : (leadIn ++ rest).take 10 = leadIn := by
      rw [List.take_append_of_le_length (le_of_eq leadIn_length.symm),
        ← leadIn_length, List.take_length]
    rw [show initPathState.trackPath = leadIn from rfl, hleft] at hp
    exact leadIn_zero p hp
  · intro hb
    have h0 : ZeroHeading initPathState := by
      refine ⟨by decide, ?_, rfl, rfl⟩
      intro p hp
      exact (leadIn_zero p hp).1
    exact (runPath_zeroHeading fsin fcos frames hb 0 _ h0).2.1

/-- A zero-beat frame with some nonzero time-domain data. -/
def zeroBeatFrame : AnalysisFrame :=
  { time := 0
    frequencyData := []
    timeData := [0]
    bandEnergies := [some 0, some 0, some 0, some 0, some 0, some 0]
    beatIntensity := some 0
    isBlock := false
    blockColor := 0 }

/-- C6 witness — on a concrete zero-beat input, the fourth lead-in point and
the first audio-driven point (index 10) both have heading zero. -/
theorem trackPath_leadIn_and_zeroBeat_straight_witness :
    ((generateTrackPath (fun _ => 0) (fun _ => 1) [zeroBeatFrame]).trackPath.getD 3
        default).rotation = some 0 ∧
      ((generateTrackPath (fun _ => 0) (fun _ => 1) [zeroBeatFrame]).trackPath.getD 10
        default).rotation = some 0 := by
  have h := trackPath_leadIn_and_zeroBeat_straight (fun _ => 0) (fun _ => 1)
    [zeroBeatFrame]
  constructor
  · have h3 : (3 : ℕ) <
        ((generateTrackPath (fun _ => 0) (fun _ => 1) [zeroBeatFrame]).trackPath.take
          10).length := by decide
    have hm := h.1 _ (List.getElem_mem h3)
    rw [List.getElem_take] at hm
    rw [List.getD_eq_getElem _ _ (by decide)]
    exact hm.1
  · have h10 : (10 : ℕ) <
        (generateTrackPath (fun _ => 0) (fun _ => 1) [zeroBeatFrame]).trackPath.length := by
      decide
    rw [List.getD_eq_getElem _ _ h10]
    exact h.2 (by intro a ha; rcases List.mem_singleton.mp ha with rfl; rfl) _
      (List.getElem_mem h10)

/-! ### C1: frame count and frame times of `analyzeAudio` -/

theorem processChunks_length (analyser : ℚ → List ℕ × List ℕ) (sr d iv : ℚ) :
    ∀ (n : ℕ) (t : ℚ), (processChunks analyser sr d iv n t).length = n
  | 0, _ => rfl
  | n + 1, t => by
    rw [processChunks]
    simpa using processChunks_length analyser sr d iv n _

theorem processChunks_time (analyser : ℚ → List ℕ × List ℕ) (sr d iv : ℚ)
    (hiv : 0 ≤ iv) :
    ∀ (n : ℕ) (t : ℚ) (i : ℕ), i < n → t + i * iv ≤ d →
      ((processChunks analyser sr d iv n t).getD i default).time = t + i * iv
  | 0, _, i, hn, _ => absurd hn (Nat.not_lt_zero i)
  | n + 1, t, 0, _, _ => by
    simp [processChunks]

  | n + 1, t, i + 1, hn, hd => by
    have h1 : (0 : ℚ) ≤ (i : ℚ) * iv := by positivity
    have hmin : min (t + iv) d = t + iv := by
      have h2 : t + iv ≤ d := by
        push_cast at hd
        nlinarith [h1]
      exact min_eq_left h2
    have hd' : (min (t + iv) d) + (i : ℚ) * iv ≤ d := by
      rw [hmin]
      push_cast at hd
      nlinarith
    have ih := processChunks_time analyser sr d iv hiv n (min (t + iv) d) i
      (by omega) hd'
    simp only [processChunks, List.getD_cons_succ]
    rw [ih, hmin]
    push_cast
    ring

/-- C1 — For a loaded buffer of duration `d ≥ 0` and resolution `r > 0`,
`analyzeAudio` resolves with exactly `⌊d * r⌋` analysis frames, and the `i`-th
frame's `time` field is exactly `i / r` (the JS value agrees up to
floating-point rounding). -/
theorem analyzeAudio_frames (analyser : ℚ → List ℕ × List ℕ) (r : ℚ)
    (st : ProcessorState) (d sr : ℚ) (hbuf : st.audioBuffer = some ⟨d, sr⟩)
    (hd : 0 ≤ d) (hr : 0 < r) :
    (analyzeAudio analyser r st).1 =
        Except.ok ((analyzeAudio analyser r st).2.analysisResults) ∧
      (analyzeAudio analyser r st).2.analysisResults.length = (⌊d * r⌋).toNat ∧
      ∀ (i : ℕ) (h : i < (analyzeAudio analyser r st).2.analysisResults.length),
        ((analyzeAudio analyser r st).2.analysisResults[i]).time = i / r := by
  have hres : (analyzeAudio analyser r st).2.analysisResults =
      processChunks analyser st.ctxSampleRate d (1 / r) (⌊d * r⌋).toNat 0 := by
    simp [analyzeAudio, hbuf]
  have hok : (analyzeAudio analyser r st).1 =
      Except.ok ((analyzeAudio analyser r st).2.analysisResults) := by
    simp [analyzeAudio, hbuf]
  refine ⟨hok, ?_, ?_⟩
  · rw [hres, processChunks_length]
  · intro i h
    have hlen : i < (⌊d * r⌋).toNat := by
      rw [hres, processChunks_length] at h
      exact h
    have hle : (0 : ℚ) + (i : ℚ) * (1 / r) ≤ d := by
      have h1 : (i : ℤ) < ⌊d * r⌋ := by omega
      have h2 : ((i : ℚ) + 1) ≤ (⌊d * r⌋ : ℚ) := by
        exact_mod_cast h1
      have h3 : ((⌊d * r⌋ : ℚ)) ≤ d * r := Int.floor_le _
      have h4 : (i : ℚ) ≤ d * r := by linarith
      rw [zero_add]
      rw [mul_one_div, div_le_iff₀ hr]
      linarith
    have hgd := processChunks_time analyser st.ctxSampleRate d (1 / r)
      (by positivity) (⌊d * r⌋).toNat 0 i hlen hle
    rw [← List.getD_eq_getElem _ default h, hres, hgd, zero_add, mul_one_div]

/-- A processor state with a one-second decoded buffer. -/
def demoBufState : ProcessorState :=
  { audioBuffer := some { duration := 1, sampleRate := 44100 }
    ctxSampleRate := 44100
    analysisResults := []
    analysisDone := false }

/-- C1 witness — with duration 1 s and resolution 10 Hz the run yields
`⌊1·10⌋ = 10` frames and the frame at index 3 is stamped `3/10` s. -/
theorem analyzeAudio_frames_witness :
    (analyzeAudio (fun _ => ([], [])) 10 demoBufState).2.analysisResults.length = 10 ∧
      ((analyzeAudio (fun _ => ([], []))
        10 demoBufState).2.analysisResults.getD 3 default).time = 3 / 10 := by
  have h := analyzeAudio_frames (fun _ => ([], [])) 10 demoBufState 1 44100 rfl
    (by norm_num) (by norm_num)
  have hfl : (⌊(1 : ℚ) * 10⌋).toNat = 10 := by
    have h10 : ⌊(1 : ℚ) * 10⌋ = 10 := by norm_num
    rw [h10]
    rfl
  have hlen : (analyzeAudio (fun _ => ([], []))
      10 demoBufState).2.analysisResults.length = 10 := by
    rw [h.2.1, hfl]
  refine ⟨hlen, ?_⟩
  have h3 : (3 : ℕ) < (analyzeAudio (fun _ => ([], []))
      10 demoBufState).2.analysisResults.length := by
    rw [hlen]; norm_num
  rw [List.getD_eq_getElem _ _ h3, h.2.2 3 h3]
  norm_num

/-! ### C3: spacing of adjacent path points -/

/-- The squared distance between two path points projected to the horizontal
XZ plane. -/
def horizStep2 (p q : PathPoint) : Option ℚ :=
  jAdd (jSq (jSub q.position.x p.position.x)) (jSq (jSub q.position.z p.position.z))

/-- Two consecutive path points are spaced by the configured forward step
`segmentLength / pointsPerSegment` in the horizontal plane. -/
def adjacentOK (p q : PathPoint) : Prop :=
  horizStep2 p q = some ((segmentLength / (pointsPerSegment : ℚ)) ^ 2)

instance : DecidableRel adjacentOK := fun p q =>
  inferInstanceAs
    (Decidable (horizStep2 p q = some ((segmentLength / (pointsPerSegment : ℚ)) ^ 2)))

/-- The squared 3D Euclidean distance between two path points. -/
def fullStep2 (p q : PathPoint) : Option ℚ :=
  jAdd (horizStep2 p q) (jSq (jSub q.position.y p.position.y))

/-- An analysis frame whose band energies at indices 1 and 4 (the ones read
by the direction logic of `generateTrackPath`) are finite numbers. -/
def ValidFrame (a : AnalysisFrame) : Prop :=
  (∃ q, a.bandEnergies.getD 1 none = some q) ∧
    (∃ q, a.bandEnergies.getD 4 none = some q)

/-- Invariant of the path-generation loop: the path is nonempty, adjacent
points are evenly spaced horizontally, and the last point's horizontal
coordinates, its heading and the two direction locals are finite. -/
def StepInv (s : PathState) : Prop :=
  s.trackPath ≠ [] ∧ List.Chain' adjacentOK s.trackPath ∧
    (∃ q, (s.trackPath.getLast?.getD default).position.x = some q) ∧
    (∃ q, (s.trackPath.getLast?.getD default).position.z = some q) ∧
    (∃ q, (s.trackPath.getLast?.getD default).rotation = some q) ∧
    (∃ q, s.targetDirection = some q) ∧
    (∃ q, s.currentDirection = some q)

theorem pathStep_targetDirection_eq (fsin fcos : ℚ → ℚ) (i : ℕ) (s : PathState)
    (a : AnalysisFrame) :
    (pathStep fsin fcos i s a).targetDirection =
      if jGt a.beatIntensity (7 / 10) then
        jMul (jMul (jSub (a.bandEnergies.getD 1 none) (a.bandEnergies.getD 4 none))
          (some curveIntensity)) (some (1 / 2))
      else jMul s.targetDirection (some (95 / 100)) := rfl

theorem pathStep_currentDirection_eq (fsin fcos : ℚ → ℚ) (i : ℕ) (s : PathState)
    (a : AnalysisFrame) :
    (pathStep fsin fcos i s a).currentDirection =
      jAdd (jMul s.currentDirection (some (9 / 10)))
        (jMul (pathStep fsin fcos i s a).targetDirection (some (1 / 10))) := rfl

theorem pathStep_newPoint_eq (fsin fcos : ℚ → ℚ) (i : ℕ) (s : PathState)
    (a : AnalysisFrame) :
    (pathStep fsin fcos i s a).trackPath = s.trackPath ++
      [{ position :=
          ⟨jAdd (s.trackPath.getLast?.getD default).position.x
            (jDiv (jMul (jApp fsin (jAdd (s.trackPath.getLast?.getD default).rotation
              (pathStep fsin fcos i s a).currentDirection)) (some segmentLength))
              (some (pointsPerSegment : ℚ))),
          jAdd (s.trackPath.getLast?.getD default).position.y
            (pathStep fsin fcos i s a).currentElevation,
          jSub (s.trackPath.getLast?.getD default).position.z
            (jDiv (jMul (jApp fcos (jAdd (s.trackPath.getLast?.getD default).rotation
              (pathStep fsin fcos i s a).currentDirection)) (some segmentLength))
              (some (pointsPerSegment : ℚ)))⟩
         rotation := jAdd (s.trackPath.getLast?.getD default).rotation
          (pathStep fsin fcos i s a).currentDirection
         tilt := (pathStep fsin fcos i s a).currentTilt }] := rfl

theorem ppsQ_ne_zero : ((pointsPerSegment : ℕ) : ℚ) ≠ 0 := by
  norm_num [pointsPerSegment]

theorem jDiv_some_pps (a : ℚ) :
    jDiv (some a) (some ((pointsPerSegment : ℕ) : ℚ)) =
      some (a / ((pointsPerSegment : ℕ) : ℚ)) :=
  jDiv_some a _ ppsQ_ne_zero

theorem pathStep_stepInv (fsin fcos : ℚ → ℚ)
    (hpy : ∀ θ, fsin θ ^ 2 + fcos θ ^ 2 = 1) (i : ℕ) (s : PathState)
    (a : AnalysisFrame) (hva : ValidFrame a) (hs : StepInv s) :
    StepInv (pathStep fsin fcos i s a) := by
  obtain ⟨hne, hch, ⟨px, hpx⟩, ⟨pz, hpz⟩, ⟨pr, hpr⟩, ⟨t0, ht0⟩, ⟨c0, hc0⟩⟩ := hs
  obtain ⟨⟨e1, he1⟩, ⟨e4, he4⟩⟩ := hva
  have htd : ∃ t1, (pathStep fsin fcos i s a).targetDirection = some t1 := by
    rw [pathStep_targetDirection_eq]
    cases hgt : jGt a.beatIntensity (7 / 10)
    · rw [if_neg (by simp [hgt]), ht0, jMul_some]
      exact ⟨_, rfl⟩
    · rw [if_pos (by simp [hgt]), he1, he4, jSub_some, jMul_some, jMul_some]
      exact ⟨_, rfl⟩
  obtain ⟨t1, ht1⟩ := htd
  have hcd : (pathStep fsin fcos i s a).currentDirection = some (c0 * (9 / 10) + t1 * (1 / 10)) := by
    rw [pathStep_currentDirection_eq, hc0, ht1, jMul_some, jMul_some, jAdd_some]
  have hrotv : jAdd (s.trackPath.getLast?.getD default).rotation
      (pathStep fsin fcos i s a).currentDirection =
      some (pr + (c0 * (9 / 10) + t1 * (1 / 10))) := by
    rw [hpr, hcd, jAdd_some]
  have hxv : jAdd (s.trackPath.getLast?.getD default).position.x
      (jDiv (jMul (jApp fsin (jAdd (s.trackPath.getLast?.getD default).rotation
        (pathStep fsin fcos i s a).currentDirection)) (some segmentLength))
        (some (pointsPerSegment : ℚ))) =
      some (px + fsin (pr + (c0 * (9 / 10) + t1 * (1 / 10))) * segmentLength /
        (pointsPerSegment : ℚ)) := by
    rw [hrotv, jApp_some, jMul_some, jDiv_some _ _ ppsQ_ne_zero, hpx, jAdd_some]
  have hzv : jSub (s.trackPath.getLast?.getD default).position.z
      (jDiv (jMul (jApp fcos (jAdd (s.trackPath.getLast?.getD default).rotation
        (pathStep fsin fcos i s a).currentDirection)) (some segmentLength))
        (some (pointsPerSegment : ℚ))) =
      some (pz - fcos (pr + (c0 * (9 / 10) + t1 * (1 / 10))) * segmentLength /
        (pointsPerSegment : ℚ)) := by
    rw [hrotv, jApp_some, jMul_some, jDiv_some _ _ ppsQ_ne_zero, hpz, jSub_some]
  have hlastD : s.trackPath.getLast?.getD default = s.trackPath.getLast hne := by
    rw [List.getLast?_eq_getLast s.trackPath hne]; rfl
  refine ⟨?_, ?_, ?_, ?_, ?_, ⟨t1, ht1⟩, ⟨_, hcd⟩⟩
  · rw [pathStep_newPoint_eq]
    simp
  · rw [pathStep_newPoint_eq]
    refine List.Chain'.append hch (List.chain'_singleton _) ?_
    intro x hx y hy
    rw [List.getLast?_eq_getLast s.trackPath hne, Option.mem_def,
      Option.some.injEq] at hx
    rw [List.head?_cons, Option.mem_def, Option.some.injEq] at hy
    subst hx
    subst hy
    show adjacentOK (s.trackPath.getLast hne) _
    unfold adjacentOK horizStep2
    rw [← hlastD]
    simp only [hrotv, jApp_some, jMul_some, jDiv_some_pps, hpx, hpz, jAdd_some,
      jSub_some, jSq, jMul_some]
    rw [Option.some.injEq]
    linear_combination (segmentLength / (pointsPerSegment : ℚ)) ^ 2 *
      hpy (pr + (c0 * (9 / 10) + t1 * (1 / 10)))
  · rw [pathStep_newPoint_eq, List.getLast?_concat]
    exact ⟨_, hxv⟩
  · rw [pathStep_newPoint_eq, List.getLast?_concat]
    exact ⟨_, hzv⟩
  · rw [pathStep_newPoint_eq, List.getLast?_concat]
    exact ⟨_, hrotv⟩

theorem runPath_stepInv (fsin fcos : ℚ → ℚ)
    (hpy : ∀ θ, fsin θ ^ 2 + fcos θ ^ 2 = 1) :
    ∀ (frames : List AnalysisFrame), (∀ a ∈ frames, ValidFrame a) →
      ∀ (i : ℕ) (s : PathState), StepInv s →
        StepInv (runPath fsin fcos frames i s)
  | [], _, _, _, hs => hs
  | f :: rest, hv, i, s, hs => by
    rw [runPath]
    exact runPath_stepInv fsin fcos hpy rest
      (fun a ha => hv a (List.mem_cons_of_mem f ha)) (i + 1) _
      (pathStep_stepInv fsin fcos hpy i s f (hv f (List.mem_cons_self f rest)) hs)

theorem leadIn_chain : List.Chain' adjacentOK leadIn := by
  rw [leadIn, List.chain'_map (fun i : ℕ =>
    ({ position := ⟨some 0, some 0,
        some (-(i : ℚ) * segmentLength / (pointsPerSegment : ℚ))⟩
       rotation := some 0
       tilt := some 0 } : PathPoint))]
  rw [show (10 : ℕ) = 9 + 1 from rfl, List.chain'_range_succ]
  intro m _
  show adjacentOK _ _
  unfold adjacentOK horizStep2
  simp only [jSub_some, jSq, jMul_some, jAdd_some, Option.some.injEq]
  push_cast
  ring

theorem stepInv_init : StepInv initPathState := by
  refine ⟨by decide, leadIn_chain, ⟨_, rfl⟩, ⟨_, rfl⟩, ⟨_, rfl⟩, ⟨0, rfl⟩, ⟨0, rfl⟩⟩

/-- C3 amended — For frames whose direction-driving band energies are finite
numbers, every pair of adjacent path points of `generateTrackPath` is spaced
by exactly `segmentLength / pointsPerSegment` in the horizontal (XZ) plane
(the 3D Euclidean distance additionally includes the per-frame elevation
offset along Y, so it equals the step only when that offset is zero). -/
theorem trackPath_horizontal_step_chain (fsin fcos : ℚ → ℚ)
    (hpy : ∀ θ, fsin θ ^ 2 + fcos θ ^ 2 = 1) (frames : List AnalysisFrame)
    (hva : ∀ a ∈ frames, ValidFrame a) :
    List.Chain' adjacentOK (generateTrackPath fsin fcos frames).trackPath :=
  (runPath_stepInv fsin fcos hpy frames hva 0 initPathState stepInv_init).2.1

/-- C3 witness — the horizontal spacing invariant on a concrete one-frame
run (with `fsin = 0`, `fcos = 1`, which satisfy the circle identity). -/
theorem trackPath_horizontal_step_chain_witness :
    List.Chain' adjacentOK
      (generateTrackPath (fun _ => 0) (fun _ => 1) [zeroBeatFrame]).trackPath := by
  refine trackPath_horizontal_step_chain (fun _ => 0) (fun _ => 1)
    (fun θ => by norm_num) [zeroBeatFrame] ?_
  intro a ha
  rcases List.mem_singleton.mp ha with rfl
  exact ⟨⟨0, rfl⟩, ⟨0, rfl⟩⟩

set_option maxRecDepth 10000 in
/-- C3 counterexample — In the audio-driven interior of the path (points 10
and 11, away from any generation boundary), the squared 3D Euclidean distance
between adjacent points differs from the squared forward step: the input's
time-domain data produces a nonzero smoothed elevation offset, so the 3D
distance exceeds `segmentLength / pointsPerSegment` by far more than
floating-point tolerance. -/
theorem pathPoint_distance_not_step :
    fullStep2
        ((generateTrackPath (fun _ => 0) (fun _ => 1)
          [zeroBeatFrame, zeroBeatFrame]).trackPath.getD 10 default)
        ((generateTrackPath (fun _ => 0) (fun _ => 1)
          [zeroBeatFrame, zeroBeatFrame]).trackPath.getD 11 default) ≠
      some ((segmentLength / (pointsPerSegment : ℚ)) ^ 2) := by
  with_unfolding_all decide

/-! ### C7: collision marking and the repeat behaviour of `checkBlockCollision` -/

/-- The collision test of `checkBlockCollision` (trackGenerator.js 613-616):
an uncollected block within one segment of the player, in the player's lane. -/
def blockMatches (playerSegment playerLane : ℤ) (b : Block) : Prop :=
  b.collected = false ∧ |b.segmentIndex - playerSegment| ≤ 1 ∧
    b.laneIndex = playerLane

instance (playerSegment playerLane : ℤ) :
    DecidablePred (blockMatches playerSegment playerLane) := fun b =>
  inferInstanceAs (Decidable (_ ∧ _ ∧ _))

/-- The mutation performed on a collided block (trackGenerator.js 618-623):
mark collected, hide the mesh. -/
def collectBlock (b : Block) : Block := { b with collected := true, meshVisible := false }

theorem checkBlocksFrom_some (playerSegment playerLane : ℤ) :
    ∀ (bs : List Block) (i : ℕ) (r : CollisionResult) (bs' : List Block),
      checkBlocksFrom playerSegment playerLane bs i = (some r, bs') →
      ∃ k, k < bs.length ∧
        r = ⟨k + i, (bs.getD k default).color, (bs.getD k default).segmentIndex⟩ ∧
        blockMatches playerSegment playerLane (bs.getD k default) ∧
        (∀ j, j < k → ¬ blockMatches playerSegment playerLane (bs.getD j default)) ∧
        bs' = bs.set k (collectBlock (bs.getD k default))
  | [], i, r, bs', h => by
    rw [checkBlocksFrom] at h
    exact Option.noConfusion (congrArg Prod.fst h)
  | b :: rest, i, r, bs', h => by
    rw [checkBlocksFrom] at h
    by_cases hc : b.collected = true
    · rw [if_pos hc] at h
      cases hrec : checkBlocksFrom playerSegment playerLane rest (i + 1) with
      | mk res1 res2 =>
        rw [hrec] at h
        simp only [Prod.mk.injEq] at h
        obtain ⟨h1, h2⟩ := h
        subst h1
        obtain ⟨k, hk, hr, hm, hfirst, hset⟩ :=
          checkBlocksFrom_some playerSegment playerLane rest (i + 1) r res2 hrec
        refine ⟨k + 1, by simpa using hk, ?_, ?_, ?_, ?_⟩
        · simp only [List.getD_cons_succ]
          rw [show k + 1 + i = k + (i + 1) from by omega]
          exact hr
        · simp only [List.getD_cons_succ]
          exact hm
        · intro j hj
          cases j with
          | zero =>
            rw [List.getD_cons_zero]
            intro hmb
            rw [hmb.1] at hc
            exact Bool.false_ne_true hc
          | succ j' =>
            rw [List.getD_cons_succ]
            exact hfirst j' (by omega)
        · simp only [List.getD_cons_succ, List.set_cons_succ]
          rw [← h2, hset]
    · rw [if_neg hc] at h
      by_cases hm : |b.segmentIndex - playerSegment| ≤ 1 ∧ b.laneIndex = playerLane
      · rw [if_pos hm] at h
        simp only [Prod.mk.injEq] at h
        obtain ⟨h1, h2⟩ := h
        have hcf : b.collected = false := by simpa using hc
        refine ⟨0, by simp, ?_, ?_, ?_, ?_⟩
        · simp only [List.getD_cons_zero, Nat.zero_add]
          exact (Option.some.inj h1).symm
        · rw [List.getD_cons_zero]
          exact ⟨hcf, hm.1, hm.2⟩
        · intro j hj
          exact absurd hj (Nat.not_lt_zero j)
        · rw [List.getD_cons_zero, List.set_cons_zero, ← h2]
          rfl
      · rw [if_neg hm] at h
        cases hrec : checkBlocksFrom playerSegment playerLane rest (i + 1) with
        | mk res1 res2 =>
          rw [hrec] at h
          simp only [Prod.mk.injEq] at h
          obtain ⟨h1, h2⟩ := h
          subst h1
          obtain ⟨k, hk, hr, hmm, hfirst, hset⟩ :=
            checkBlocksFrom_some playerSegment playerLane rest (i + 1) r res2 hrec
          refine ⟨k + 1, by simpa using hk, ?_, ?_, ?_, ?_⟩
          · simp only [List.getD_cons_succ]
            rw [show k + 1 + i = k + (i + 1) from by omega]
            exact hr
          · simp only [List.getD_cons_succ]
            exact hmm
          · intro j hj
            cases j with
            | zero =>
              rw [List.getD_cons_zero]
              intro hmb
              exact hm ⟨hmb.2.1, hmb.2.2⟩
            | succ j' =>
              rw [List.getD_cons_succ]
              exact hfirst j' (by omega)
          · simp only [List.getD_cons_succ, List.set_cons_succ]
            rw [← h2, hset]

/-- C7 amended — `checkBlockCollision` returns the FIRST not-yet-collected
block within one segment of the player in the player's lane, marking it
collected and hiding its mesh; a later identical call can never return that
same block again (it is collected), though it may return a DIFFERENT block
that also matches — so the second identical call returns no collision
exactly when no other uncollected block matches. -/
theorem checkBlockCollision_first_and_norepeat (playerSegment playerLane : ℤ)
    (blocks : List Block) (r : CollisionResult) (blocks' : List Block)
    (h : checkBlockCollision playerSegment playerLane blocks = (some r, blocks')) :
    (r.index < blocks.length ∧
      blockMatches playerSegment playerLane (blocks.getD r.index default) ∧
      r.color = (blocks.getD r.index default).color ∧
      r.segmentIndex = (blocks.getD r.index default).segmentIndex ∧
      (∀ j, j < r.index →
        ¬ blockMatches playerSegment playerLane (blocks.getD j default)) ∧
      blocks' = blocks.set r.index (collectBlock (blocks.getD r.index default))) ∧
    ∀ (r' : CollisionResult) (blocks'' : List Block),
      checkBlockCollision playerSegment playerLane blocks' = (some r', blocks'') →
        r'.index ≠ r.index := by
  obtain ⟨k, hk, hr, hm, hfirst, hset⟩ :=
    checkBlocksFrom_some playerSegment playerLane blocks 0 r blocks' h
  have hidx : r.index = k := by rw [hr]; rfl
  refine ⟨⟨?_, ?_, ?_, ?_, ?_, ?_⟩, ?_⟩
  · rw [hidx]; exact hk
  · rw [hidx]; exact hm
  · rw [hidx, hr]
  · rw [hidx, hr]
  · rw [hidx]; exact hfirst
  · rw [hidx]; exact hset
  · intro r' blocks'' h' hEq
    obtain ⟨k', hk', hr', hm', _, _⟩ :=
      checkBlocksFrom_some playerSegment playerLane blocks' 0 r' blocks'' h'
    have hidx' : r'.index = k' := by rw [hr']; rfl
    have hkk : k' = k := by rw [← hidx', ← hidx, hEq]
    rw [hkk, hset] at hm'
    have hlen : k < (blocks.set k (collectBlock (blocks.getD k default))).length := by
      rw [List.length_set]; exact hk
    rw [List.getD_eq_getElem _ _ hlen, List.getElem_set_self] at hm'
    have : (collectBlock (blocks.getD k default)).collected = false := hm'.1
    rw [show (collectBlock (blocks.getD k default)).collected = true from rfl] at this
    exact Bool.noConfusion this

/-- A single matching block (lane 0, segment 0, color 3). -/
def demoBlocks : List Block :=
  [{ laneIndex := 0, segmentIndex := 0, color := 3, collected := false,
     visible := true, meshVisible := true }]

/-- C7 witness — on a concrete one-block state the collision call marks the
block collected and hides its mesh. -/
theorem checkBlockCollision_first_and_norepeat_witness :
    (checkBlockCollision 0 0 demoBlocks).2 =
      demoBlocks.set 0 (collectBlock (demoBlocks.getD 0 default)) := by
  have h := checkBlockCollision_first_and_norepeat 0 0 demoBlocks
    ⟨0, 3, 0⟩ ((checkBlockCollision 0 0 demoBlocks).2) (by decide)
  exact h.1.2.2.2.2.2

/-- Two uncollected blocks that both match the query (same lane, same
segment). -/
def twoBlocks : List Block :=
  [{ laneIndex := 0, segmentIndex := 0, color := 0, collected := false,
     visible := true, meshVisible := true },
   { laneIndex := 0, segmentIndex := 0, color := 1, collected := false,
     visible := true, meshVisible := true }]

/-- C7 counterexample — with two uncollected matching blocks, the second
identical call (on the otherwise unchanged state returned by the first call)
returns a collision again (the other block), refuting "the second identical
call returns no collision". -/
theorem checkBlockCollision_second_call_not_none :
    (checkBlockCollision 0 0 (checkBlockCollision 0 0 twoBlocks).2).1 ≠ none := by
  decide

/-! ### C4: band-energy bin indices are floors, not rounds -/

/-- The band-energy computation as the spec words it, with bin index
`round(freq / nyquist * spectrumLength)` and the high bound inclusive. -/
def bandEnergiesRoundSpec (sampleRate : ℚ) (spectrum : List ℕ) : List ℚ :=
  let nyquist := sampleRate / 2
  frequencyBands.map (fun band =>
    let minIndex : ℤ := round (band.bmin / nyquist * (spectrum.length : ℚ))
    let maxIndex : ℤ := round (band.bmax / nyquist * (spectrum.length : ℚ))
    ((intRange minIndex maxIndex).map
      (fun i => ((spectrum.getD i.toNat 0 : ℕ) : ℚ) / 255)).sum /
      ((maxIndex : ℚ) - (minIndex : ℚ) + 1))

/-- The band-energy computation with the source's `Math.floor` bin indices,
written spec-style as an average over the bin range. -/
def bandEnergiesFloorSpec (sampleRate : ℚ) (spectrum : List ℕ) : List ℚ :=
  let nyquist := sampleRate / 2
  frequencyBands.map (fun band =>
    let minIndex : ℤ := ⌊band.bmin / nyquist * (spectrum.length : ℚ)⌋
    let maxIndex : ℤ := ⌊band.bmax / nyquist * (spectrum.length : ℚ)⌋
    ((intRange minIndex maxIndex).map
      (fun i => ((spectrum.getD i.toNat 0 : ℕ) : ℚ) / 255)).sum /
      ((maxIndex : ℚ) - (minIndex : ℚ) + 1))

/-- A spectrum of 64 bins with a single full-scale value at bin 5. -/
def demoSpectrum : List ℕ := (List.range 64).map (fun (i : ℕ) => if i = 5 then 255 else 0)

set_option maxRecDepth 40000 in
/-- C4 counterexample — at sample rate 44100 and a 64-bin spectrum with bin 5
set to 255, the code's band energies differ from the spec's round-indexed
averages: for the 500-2000 Hz band the code averages bins `⌊1.45⌋ = 1` to
`⌊5.8⌋ = 5` (giving 1/5) while the claim's rounded indices run 1 to 6
(giving 1/6). -/
theorem calculateBandEnergies_not_roundSpec :
    calculateBandEnergies 44100 demoSpectrum ≠
      (bandEnergiesRoundSpec 44100 demoSpectrum).map some := by
  with_unfolding_all decide

/-- All configured bands map to a nonempty, in-range bin interval under the
floor indexing. -/
def BandIdxOK (sampleRate : ℚ) (len : ℕ) : Prop :=
  ∀ band ∈ frequencyBands,
    0 ≤ ⌊band.bmin / (sampleRate / 2) * (len : ℚ)⌋ ∧
      ⌊band.bmin / (sampleRate / 2) * (len : ℚ)⌋ ≤
        ⌊band.bmax / (sampleRate / 2) * (len : ℚ)⌋ ∧
      ⌊band.bmax / (sampleRate / 2) * (len : ℚ)⌋ < (len : ℤ)

instance (sampleRate : ℚ) (len : ℕ) : Decidable (BandIdxOK sampleRate len) :=
  inferInstanceAs (Decidable (∀ band ∈ frequencyBands,
    0 ≤ ⌊band.bmin / (sampleRate / 2) * (len : ℚ)⌋ ∧
      ⌊band.bmin / (sampleRate / 2) * (len : ℚ)⌋ ≤
        ⌊band.bmax / (sampleRate / 2) * (len : ℚ)⌋ ∧
      ⌊band.bmax / (sampleRate / 2) * (len : ℚ)⌋ < (len : ℤ)))

theorem intRange_length (lo hi : ℤ) : (intRange lo hi).length = (hi + 1 - lo).toNat := by
  rw [intRange, List.length_map, List.length_range]

theorem mem_intRange {lo hi i : ℤ} : i ∈ intRange lo hi ↔ lo ≤ i ∧ i ≤ hi := by
  rw [intRange]
  simp only [List.mem_map, List.mem_range]
  constructor
  · rintro ⟨k, hk, rfl⟩
    omega
  · rintro ⟨h1, h2⟩
    exact ⟨(i - lo).toNat, by omega, by omega⟩

theorem jGetI_in_bounds (l : List ℕ) (i : ℤ) (h0 : 0 ≤ i) (hl : i.toNat < l.length) :
    jGetI l i = some ((l.getD i.toNat 0 : ℕ) : ℚ) := by
  rw [jGetI, if_neg (not_lt.mpr h0), List.get?_eq_getElem?,
    List.getElem?_eq_getElem hl, List.getD_eq_getElem _ _ hl]
  rfl

theorem foldl_jAdd_some (g : ℤ → Option ℚ) (gq : ℤ → ℚ) :
    ∀ (l : List ℤ) (q0 : ℚ), (∀ i ∈ l, g i = some (gq i)) →
      l.foldl (fun e i => jAdd e (g i)) (some q0) = some (q0 + (l.map gq).sum)
  | [], q0, _ => by simp
  | i :: rest, q0, hg => by
    rw [List.foldl_cons, hg i (List.mem_cons_self i rest), jAdd_some,
      foldl_jAdd_some g gq rest (q0 + gq i)
        (fun j hj => hg j (List.mem_cons_of_mem i hj))]
    rw [List.map_cons, List.sum_cons, Option.some.injEq]
    ring

theorem bandEnergies_floorSpec_aux (sampleRate : ℚ) (spectrum : List ℕ)
    (hb : BandIdxOK sampleRate spectrum.length) :
    calculateBandEnergies sampleRate spectrum =
      (bandEnergiesFloorSpec sampleRate spectrum).map some := by
  rw [calculateBandEnergies, bandEnergiesFloorSpec, List.map_map]
  refine List.map_congr_left ?_
  intro band hband
  obtain ⟨h0, hle, hlt⟩ := hb band hband
  rw [Function.comp_apply]
  dsimp only
  rw [foldl_jAdd_some _
    (fun i => ((spectrum.getD i.toNat 0 : ℕ) : ℚ) / 255) _ 0 ?_]
  · rw [zero_add]
    refine jDiv_some _ _ ?_
    have hle' : (⌊band.bmin / (sampleRate / 2) * (spectrum.length : ℚ)⌋ : ℚ) ≤
        (⌊band.bmax / (sampleRate / 2) * (spectrum.length : ℚ)⌋ : ℚ) := by
      exact_mod_cast hle
    intro hzero
    nlinarith [hle', hzero]
  · intro i hi
    rw [mem_intRange] at hi
    have h0i : 0 ≤ i := le_trans h0 hi.1
    have hil : i.toNat < spectrum.length := by omega
    rw [jGetI_in_bounds spectrum i h0i hil, jDiv_some _ _ (by norm_num)]

/-- C4 amended — For every sample rate and spectrum for which all configured
bands map to in-range bin intervals, `calculateBandEnergies` equals the
spec-style banded average computed with FLOOR bin indices
`⌊freq / nyquist * spectrumLength⌋` (not `round`), high bound inclusive; in
particular the result has one finite entry per configured band in configured
order. -/
theorem calculateBandEnergies_eq_floorSpec (sampleRate : ℚ) (spectrum : List ℕ)
    (hb : BandIdxOK sampleRate spectrum.length) :
    calculateBandEnergies sampleRate spectrum =
      (bandEnergiesFloorSpec sampleRate spectrum).map some :=
  bandEnergies_floorSpec_aux sampleRate spectrum hb

/-- A 16-bin all-zero spectrum; all configured bands are in range for it at
44100 Hz. -/
def demoSpectrum16 : List ℕ := List.replicate 16 0

set_option maxRecDepth 40000 in
/-- C4 witness — the floor-indexed characterization applied at sample rate
44100 to a concrete 16-bin spectrum. -/
theorem calculateBandEnergies_eq_floorSpec_witness :
    calculateBandEnergies 44100 demoSpectrum16 =
      (bandEnergiesFloorSpec 44100 demoSpectrum16).map some :=
  calculateBandEnergies_eq_floorSpec 44100 demoSpectrum16
    (by with_unfolding_all decide)

/-! ### C5: range of the band energies and of the beat intensity -/

/-- The JS value is a finite number lying in the unit interval `[0, 1]`
(NaN and ±Infinity do not lie in it). -/
def isInUnit : Option ℚ → Prop
  | some q => 0 ≤ q ∧ q ≤ 1
  | none => False

instance : DecidablePred isInUnit
  | some _ => inferInstanceAs (Decidable (_ ∧ _))
  | none => inferInstanceAs (Decidable False)

set_option maxRecDepth 40000 in
/-- C5 counterexample — on an empty time-domain array (an 8-bit magnitude
array of length 0, allowed by the claim) `detectBeat` divides by
`maxIndex * 255 = 0` and by `255 * timeData.length = 0`, producing NaN in JS;
the result does not lie in `[0, 1]`. -/
theorem detectBeat_not_unit_on_empty :
    ¬ isInUnit (detectBeat 44100 (List.replicate 8 0) []) := by
  with_unfolding_all decide

theorem jMin1_some (a : ℚ) : jMin1 (some a) = some (min 1 a) := rfl

theorem foldl_add_map {α : Type} (f : α → ℚ) :
    ∀ (l : List α) (q0 : ℚ),
      l.foldl (fun s p => s + f p) q0 = q0 + (l.map f).sum
  | [], q0 => by simp
  | a :: rest, q0 => by
    rw [List.foldl_cons, foldl_add_map f rest (q0 + f a), List.map_cons,
      List.sum_cons]
    ring

theorem getD_le_bound (l : List ℕ) (hv : ∀ v ∈ l, v ≤ 255) (n : ℕ) :
    l.getD n 0 ≤ 255 := by
  by_cases h : n < l.length
  · rw [List.getD_eq_getElem _ _ h]
    exact hv _ (List.getElem_mem h)
  · rw [List.getD_eq_default _ _ (by omega)]
    norm_num

theorem bandSum_bounds (spectrum : List ℕ) (hsv : ∀ v ∈ spectrum, v ≤ 255)
    (lo hi : ℤ) :
    0 ≤ ((intRange lo hi).map
        (fun i => ((spectrum.getD i.toNat 0 : ℕ) : ℚ) / 255)).sum ∧
      ((intRange lo hi).map
        (fun i => ((spectrum.getD i.toNat 0 : ℕ) : ℚ) / 255)).sum ≤
        ((hi + 1 - lo).toNat : ℚ) := by
  constructor
  · refine List.sum_nonneg ?_
    intro x hx
    rw [List.mem_map] at hx
    obtain ⟨i, _, rfl⟩ := hx
    positivity
  · have h := List.sum_le_card_nsmul ((intRange lo hi).map
      (fun i => ((spectrum.getD i.toNat 0 : ℕ) : ℚ) / 255)) 1 ?_
    · rw [List.length_map, intRange_length, nsmul_eq_mul, mul_one] at h
      exact h
    · intro x hx
      rw [List.mem_map] at hx
      obtain ⟨i, _, rfl⟩ := hx
      rw [div_le_one (by norm_num)]
      have := getD_le_bound spectrum hsv i.toNat
      exact_mod_cast this

/-- C5 amended — Provided every accessed spectral bin is in range (all
configured bands, and at least one bass bin below 150 Hz), the spectrum and
waveform samples are 8-bit values (≤ 255), and the waveform is nonempty,
every element of the `calculateBandEnergies` result is a finite number in
`[0, 1]` and the `detectBeat` result is a finite number in `[0, 1]`.  For the
degenerate lengths the claim additionally covers (e.g. an empty waveform or
bands past the end of the spectrum), the JS results are NaN. -/
theorem bandEnergies_detectBeat_unit_range (sampleRate : ℚ)
    (spectrum timeData : List ℕ)
    (hb : BandIdxOK sampleRate spectrum.length)
    (hsv : ∀ v ∈ spectrum, v ≤ 255)
    (htv : ∀ v ∈ timeData, v ≤ 255)
    (hbass1 : 1 ≤ ⌊(150 : ℚ) / (sampleRate / 2) * (spectrum.length : ℚ)⌋)
    (hbass2 : ⌊(150 : ℚ) / (sampleRate / 2) * (spectrum.length : ℚ)⌋ ≤
      (spectrum.length : ℤ))
    (htd : timeData ≠ []) :
    (∀ e ∈ calculateBandEnergies sampleRate spectrum, isInUnit e) ∧
      isInUnit (detectBeat sampleRate spectrum timeData) := by
  constructor
  · rw [bandEnergies_floorSpec_aux sampleRate spectrum hb]
    intro e he
    rw [List.mem_map] at he
    obtain ⟨q, hq, rfl⟩ := he
    rw [bandEnergiesFloorSpec] at hq
    rw [List.mem_map] at hq
    obtain ⟨band, hband, rfl⟩ := hq
    obtain ⟨h0, hle, hlt⟩ := hb band hband
    dsimp only
    obtain ⟨hs0, hs1⟩ := bandSum_bounds spectrum hsv
      ⌊band.bmin / (sampleRate / 2) * (spectrum.length : ℚ)⌋
      ⌊band.bmax / (sampleRate / 2) * (spectrum.length : ℚ)⌋
    have hcnt : (0 : ℚ) <
        (⌊band.bmax / (sampleRate / 2) * (spectrum.length : ℚ)⌋ : ℚ) -
          (⌊band.bmin / (sampleRate / 2) * (spectrum.length : ℚ)⌋ : ℚ) + 1 := by
      have : (⌊band.bmin / (sampleRate / 2) * (spectrum.length : ℚ)⌋ : ℚ) ≤
          (⌊band.bmax / (sampleRate / 2) * (spectrum.length : ℚ)⌋ : ℚ) := by
        exact_mod_cast hle
      linarith
    have hcnt' : ((⌊band.bmax / (sampleRate / 2) * (spectrum.length : ℚ)⌋ + 1 -
        ⌊band.bmin / (sampleRate / 2) * (spectrum.length : ℚ)⌋).toNat : ℚ) =
        (⌊band.bmax / (sampleRate / 2) * (spectrum.length : ℚ)⌋ : ℚ) -
          (⌊band.bmin / (sampleRate / 2) * (spectrum.length : ℚ)⌋ : ℚ) + 1 := by
      have hnn : (0 : ℤ) ≤ ⌊band.bmax / (sampleRate / 2) * (spectrum.length : ℚ)⌋ +
          1 - ⌊band.bmin / (sampleRate / 2) * (spectrum.length : ℚ)⌋ := by omega
      rw [← Int.cast_natCast (R := ℚ), Int.toNat_of_nonneg hnn]
      push_cast
      ring
    constructor
    · exact div_nonneg hs0 (le_of_lt hcnt)
    · rw [div_le_one hcnt]
      rw [hcnt'] at hs1
      exact hs1
  · unfold detectBeat
    dsimp only
    rw [foldl_jAdd_some (fun i => jGetI spectrum i)
      (fun i => ((spectrum.getD i.toNat 0 : ℕ) : ℚ)) _ 0 ?_]
    · rw [foldl_add_map (fun p => |((p.2 : ℕ) : ℚ) - ((p.1 : ℕ) : ℚ)|)
        (timeData.zip timeData.tail) 0]
      have hmx : (0 : ℚ) <
          (⌊(150 : ℚ) / (sampleRate / 2) * (spectrum.length : ℚ)⌋ : ℚ) * 255 := by
        have : (1 : ℚ) ≤
            (⌊(150 : ℚ) / (sampleRate / 2) * (spectrum.length : ℚ)⌋ : ℚ) := by
          exact_mod_cast hbass1
        nlinarith
      have hlen0 : 0 < timeData.length := List.length_pos.mpr htd
      have htl : (0 : ℚ) < 255 * (timeData.length : ℚ) := by
        have : (0 : ℚ) < (timeData.length : ℚ) := by exact_mod_cast hlen0
        nlinarith
      rw [jDiv_some _ _ (ne_of_gt hmx), jDiv_some _ _ (ne_of_gt htl),
        jMul_some, jMul_some, jAdd_some, jMin1_some]
      have he : 0 ≤ (0 + ((intRange 0 (⌊(150 : ℚ) / (sampleRate / 2) *
            (spectrum.length : ℚ)⌋ - 1)).map
            (fun i => ((spectrum.getD i.toNat 0 : ℕ) : ℚ))).sum) /
          ((⌊(150 : ℚ) / (sampleRate / 2) * (spectrum.length : ℚ)⌋ : ℚ) * 255) := by
        refine div_nonneg ?_ (le_of_lt hmx)
        rw [zero_add]
        refine List.sum_nonneg ?_
        intro x hx
        rw [List.mem_map] at hx
        obtain ⟨i, _, rfl⟩ := hx
        positivity
      have ht : 0 ≤ (0 + ((timeData.zip timeData.tail).map
            (fun p => |((p.2 : ℕ) : ℚ) - ((p.1 : ℕ) : ℚ)|)).sum) /
          (255 * (timeData.length : ℚ)) := by
        refine div_nonneg ?_ (le_of_lt htl)
        rw [zero_add]
        refine List.sum_nonneg ?_
        intro x hx
        rw [List.mem_map] at hx
        obtain ⟨p, _, rfl⟩ := hx
        positivity
      have he1 : (0 + ((intRange 0 (⌊(150 : ℚ) / (sampleRate / 2) *
            (spectrum.length : ℚ)⌋ - 1)).map
            (fun i => ((spectrum.getD i.toNat 0 : ℕ) : ℚ))).sum) /
          ((⌊(150 : ℚ) / (sampleRate / 2) * (spectrum.length : ℚ)⌋ : ℚ) * 255) ≤ 1 := by
        rw [div_le_one hmx, zero_add]
        have hsum := List.sum_le_card_nsmul ((intRange 0 (⌊(150 : ℚ) /
            (sampleRate / 2) * (spectrum.length : ℚ)⌋ - 1)).map
            (fun i => ((spectrum.getD i.toNat 0 : ℕ) : ℚ))) 255 ?_
        · rw [List.length_map, intRange_length, nsmul_eq_mul] at hsum
          have hc : ((⌊(150 : ℚ) / (sampleRate / 2) * (spectrum.length : ℚ)⌋ -
              1 + 1 - 0).toNat : ℚ) =
              (⌊(150 : ℚ) / (sampleRate / 2) * (spectrum.length : ℚ)⌋ : ℚ) := by
            have hnn : (0 : ℤ) ≤ ⌊(150 : ℚ) / (sampleRate / 2) *
                (spectrum.length : ℚ)⌋ - 1 + 1 - 0 := by omega
            rw [← Int.cast_natCast (R := ℚ), Int.toNat_of_nonneg hnn]
            push_cast
            ring
          rw [hc] at hsum
          linarith
        · intro x hx
          rw [List.mem_map] at hx
          obtain ⟨i, _, rfl⟩ := hx
          have := getD_le_bound spectrum hsv i.toNat
          exact_mod_cast this
      have ht1 : (0 + ((timeData.zip timeData.tail).map
            (fun p => |((p.2 : ℕ) : ℚ) - ((p.1 : ℕ) : ℚ)|)).sum) /
          (255 * (timeData.length : ℚ)) ≤ 1 := by
        rw [div_le_one htl, zero_add]
        have hsum := List.sum_le_card_nsmul ((timeData.zip timeData.tail).map
            (fun p => |((p.2 : ℕ) : ℚ) - ((p.1 : ℕ) : ℚ)|)) 255 ?_
        · rw [List.length_map, nsmul_eq_mul] at hsum
          have hc : (((timeData.zip timeData.tail).length : ℚ)) * 255 ≤
              255 * (timeData.length : ℚ) := by
            rw [List.length_zip, List.length_tail]
            have h1 : (timeData.length ⊓ (timeData.length - 1)) ≤
                timeData.length := le_trans inf_le_left (le_refl _)
            have h2 : ((timeData.length ⊓ (timeData.length - 1) : ℕ) : ℚ) ≤
                (timeData.length : ℚ) := by exact_mod_cast h1
            nlinarith
          linarith
        · intro x hx
          rw [List.mem_map] at hx
          obtain ⟨p, hp, rfl⟩ := hx
          obtain ⟨hp1, hp2⟩ := List.of_mem_zip hp
          have hv1 := htv p.1 hp1
          have hv2 := htv p.2 (List.mem_of_mem_tail hp2)
          have hc1 : ((p.1 : ℕ) : ℚ) ≤ 255 := by exact_mod_cast hv1
          have hc2 : ((p.2 : ℕ) : ℚ) ≤ 255 := by exact_mod_cast hv2
          have hc3 : (0 : ℚ) ≤ ((p.1 : ℕ) : ℚ) := by positivity
          have hc4 : (0 : ℚ) ≤ ((p.2 : ℕ) : ℚ) := by positivity
          rw [abs_le]
          constructor <;> linarith
      refine ⟨?_, ?_⟩
      · refine le_min (by norm_num) ?_
        nlinarith [he, ht]
      · exact min_le_left _ _
    · intro i hi
      rw [mem_intRange] at hi
      have h0i : 0 ≤ i := hi.1
      have hil : i.toNat < spectrum.length := by omega
      exact jGetI_in_bounds spectrum i h0i hil

/-- A 147-bin all-zero spectrum: at 44100 Hz the bass range contains exactly
one bin (`⌊150/22050·147⌋ = 1`) and all configured bands are in range. -/
def demoSpectrum147 : List ℕ := List.replicate 147 0

set_option maxRecDepth 100000 in
/-- C5 witness — the unit-range property applied at sample rate 44100 to a
concrete 147-bin spectrum and one-sample waveform. -/
theorem bandEnergies_detectBeat_unit_range_witness :
    isInUnit (detectBeat 44100 demoSpectrum147 [128]) :=
  (bandEnergies_detectBeat_unit_range 44100 demoSpectrum147 [128]
    (by with_unfolding_all decide)
    (by with_unfolding_all decide)
    (by with_unfolding_all decide)
    (by with_unfolding_all decide)
    (by with_unfolding_all decide)
    (by with_unfolding_all decide)).2

end KUSS
